import Mathlib

/-!
# Verification of the scg-service-api runtime primitives

A shallow embedding, in Lean 4, of the three stateful primitives of the
`next-trace/scg-service-api` repository:

* the per-key token-bucket rate limiter
  (`infrastructure/ratelimit`, type `rateLimiter`),
* the per-key circuit breaker
  (`infrastructure/circuitbreaker/gobreaker_adapter.go`,
  types `circuitBreaker` and `gobreakerAdapter`),
* the TTL in-memory cache
  (`infrastructure/cache/memory_adapter.go`, type `memoryAdapter`).

Modelling conventions:

* Wall-clock instants and durations are rationals (`ℚ`), measured in seconds.
  Go `time.Time` zero values are modelled as `Option.none` where the code
  tests `IsZero`.  Go's `float64` arithmetic is modelled by exact rational
  arithmetic; `time.Duration` (an `int64` nanosecond count) is modelled as
  `ℤ`, with the Go float-to-int conversion's truncation toward zero made
  explicit.
* Go `uint32` counters are `ℕ` reduced modulo `2 ^ 32` at each increment;
  Go `int64` arithmetic is `ℤ` reduced into `[-2^63, 2^63)` where the code
  can overflow.
* Go maps are association lists; the unspecified iteration order of a Go
  `for k := range m` loop is represented by the head of the list.
* Each Go method that mutates state through a pointer becomes a function
  returning the updated state; locking disappears because the lock makes
  every read-modify-write atomic, so one Lean step per Go critical section
  is the linearized semantics.
* Functions passed to `Execute` are represented by their observed outcome
  (a result and an optional error), since the breaker only branches on
  that outcome.
-/

namespace SCG

/-! ## Association-list model of Go maps (keyed stores) -/

/-- Lookup in a Go map modelled as an association list. -/
def lookupKey {β : Type} : List (String × β) → String → Option β
  | [], _ => none
  | (k, v) :: t, key => if k = key then some v else lookupKey t key

/-- Insertion/overwrite in a Go map modelled as an association list. -/
def putKey {β : Type} : List (String × β) → String → β → List (String × β)
  | [], key, v => [(key, v)]
  | (k, w) :: t, key, v =>
      if k = key then (key, v) :: t else (k, w) :: putKey t key v

/-- Deletion in a Go map modelled as an association list. -/
def delKey {β : Type} : List (String × β) → String → List (String × β)
  | [], _ => []
  | (k, w) :: t, key =>
      if k = key then delKey t key else (k, w) :: delKey t key

theorem lookupKey_putKey_self {β : Type} (l : List (String × β)) (k : String) (v : β) :
    lookupKey (putKey l k v) k = some v := by
  induction l with
  | nil => simp [putKey, lookupKey]
  | cons hd t ih =>
      obtain ⟨k', w⟩ := hd
      by_cases h : k' = k
      · simp [putKey, h, lookupKey]
      · simp [putKey, h, lookupKey, ih]

theorem length_putKey_le {β : Type} (l : List (String × β)) (k : String) (v : β) :
    (putKey l k v).length ≤ l.length + 1 := by
  induction l with
  | nil => simp [putKey]
  | cons hd t ih =>
      obtain ⟨k', w⟩ := hd
      by_cases h : k' = k
      · simp [putKey, h]
      · simp only [putKey, if_neg h, List.length_cons]
        omega

theorem length_delKey_le {β : Type} (l : List (String × β)) (k : String) :
    (delKey l k).length ≤ l.length := by
  induction l with
  | nil => simp [delKey]
  | cons hd t ih =>
      obtain ⟨k', w⟩ := hd
      by_cases h : k' = k
      · simp only [delKey, if_pos h, List.length_cons]
        omega
      · simp only [delKey, if_neg h, List.length_cons]
        omega

/-! ## Machine-integer helpers -/

/-- Truncation toward zero, the semantics of Go's float-to-integer
conversion (`time.Duration(x)` for a `float64` value `x`). -/
def truncToward0 (q : ℚ) : ℤ :=
  if 0 ≤ q then ⌊q⌋ else -⌊-q⌋

/-- Go `time.Duration` is an `int64` count of nanoseconds;
`time.Duration(waitTime * float64(time.Second))` converts a float64 number
of seconds into it, truncating toward zero. -/
def toDuration (seconds : ℚ) : ℤ :=
  truncToward0 (seconds * 1000000000)

theorem toDuration_nonneg {seconds : ℚ} (h : 0 ≤ seconds) : 0 ≤ toDuration seconds := by
  have h9 : (0 : ℚ) ≤ seconds * 1000000000 := by positivity
  simp only [toDuration, truncToward0, if_pos h9]
  exact Int.floor_nonneg.mpr h9

/-- Reduction of a `ℕ` into `uint32` range, applied wherever the Go code
increments a `uint32` counter. -/
def u32 (n : ℕ) : ℕ := n % 2 ^ 32

/-- Reduction of a `ℤ` into `int64` two's-complement range, the semantics of
overflowing Go `int64` arithmetic. -/
def wrap64 (x : ℤ) : ℤ := (x + 2 ^ 63) % 2 ^ 64 - 2 ^ 63

theorem wrap64_eq_self {x : ℤ} (h₁ : -(2 ^ 63) ≤ x) (h₂ : x < 2 ^ 63) :
    wrap64 x = x := by
  unfold wrap64
  omega

theorem wrap64_add_left (x y : ℤ) : wrap64 (wrap64 x + y) = wrap64 (x + y) := by
  unfold wrap64
  omega

theorem wrap64_add_right (x y : ℤ) : wrap64 (x + wrap64 y) = wrap64 (x + y) := by
  unfold wrap64
  omega

/-! ## Rate limiter (`infrastructure/ratelimit`, type `rateLimiter`)

The Go struct `rateLimiter { limit float64; burst int; tokens float64;
last time.Time }`.  Times are rational seconds. -/

structure RateLimiter where
  limit : ℚ
  burst : ℤ
  tokens : ℚ
  last : ℚ
deriving DecidableEq, Repr

/-- Go `newRateLimiter(limit, burst)`: the bucket starts full
(`tokens = float64(burst)`, `last = time.Now()`). -/
def newRateLimiter (limit : ℚ) (burst : ℤ) (now : ℚ) : RateLimiter :=
  { limit := limit, burst := burst, tokens := (burst : ℚ), last := now }

/-- The refill prelude shared verbatim by `Allow`, `AllowN`, `Reserve` and
`ReserveN`: `elapsed := now.Sub(r.last).Seconds(); r.last = now;
r.tokens += elapsed * r.limit; if r.tokens > float64(r.burst) { r.tokens =
float64(r.burst) }`. -/
def RateLimiter.refill (r : RateLimiter) (now : ℚ) : RateLimiter :=
  let elapsed := now - r.last
  let t := r.tokens + elapsed * r.limit
  { r with last := now, tokens := if t > (r.burst : ℚ) then (r.burst : ℚ) else t }

/-- Go `rateLimiter.Allow`. -/
def RateLimiter.allow (r : RateLimiter) (now : ℚ) : Bool × RateLimiter :=
  let r := r.refill now
  if r.tokens < 1 then (false, r)
  else (true, { r with tokens := r.tokens - 1 })

/-- Go `rateLimiter.AllowN`. -/
def RateLimiter.allowN (r : RateLimiter) (n : ℤ) (now : ℚ) : Bool × RateLimiter :=
  let r := r.refill now
  if r.tokens < (n : ℚ) then (false, r)
  else (true, { r with tokens := r.tokens - (n : ℚ) })

/-- Go `rateLimiter.Reserve`: returns the `time.Duration` to wait and the
updated bucket. -/
def RateLimiter.reserve (r : RateLimiter) (now : ℚ) : ℤ × RateLimiter :=
  let r := r.refill now
  if r.tokens ≥ 1 then (0, { r with tokens := r.tokens - 1 })
  else
    let tokensNeeded := 1 - r.tokens
    let waitTime := tokensNeeded / r.limit
    (toDuration waitTime, r)

/-- Go `rateLimiter.ReserveN`. -/
def RateLimiter.reserveN (r : RateLimiter) (n : ℤ) (now : ℚ) : ℤ × RateLimiter :=
  let r := r.refill now
  if r.tokens ≥ (n : ℚ) then (0, { r with tokens := r.tokens - (n : ℚ) })
  else
    let tokensNeeded := (n : ℚ) - r.tokens
    let waitTime := tokensNeeded / r.limit
    (toDuration waitTime, r)

/-- One operation of the limiter's per-key API surface. -/
inductive LimiterOp
  | allow
  | allowN (n : ℤ)
  | reserve
  | reserveN (n : ℤ)
deriving DecidableEq, Repr

/-- The state transformation each `LimiterOp` performs on the bucket. -/
def applyLimiterOp (r : RateLimiter) (op : LimiterOp) (now : ℚ) : RateLimiter :=
  match op with
  | .allow => (r.allow now).2
  | .allowN n => (r.allowN n now).2
  | .reserve => (r.reserve now).2
  | .reserveN n => (r.reserveN n now).2

/-- Run a timed sequence of operations against one key's bucket. -/
def runOps (r : RateLimiter) (l : List (LimiterOp × ℚ)) : RateLimiter :=
  l.foldl (fun r p => applyLimiterOp r p.1 p.2) r

/-- An operation is well-formed when it requests at least one token
(`Allow`/`Reserve` request exactly one). -/
def LimiterOp.wf : LimiterOp → Prop
  | .allowN n => 1 ≤ n
  | .reserveN n => 1 ≤ n
  | _ => True

theorem refill_bounds (r : RateLimiter) (now : ℚ)
    (h0 : 0 ≤ r.tokens) (hcap : r.tokens ≤ (r.burst : ℚ))
    (hlast : r.last ≤ now) (hlim : 0 ≤ r.limit) :
    0 ≤ (r.refill now).tokens ∧ (r.refill now).tokens ≤ (r.burst : ℚ) := by
  have hadd : (0 : ℚ) ≤ (now - r.last) * r.limit :=
    mul_nonneg (by linarith) hlim
  simp only [RateLimiter.refill]
  split
  · constructor
    · linarith
    · linarith
  · constructor
    · linarith
    · linarith

/-- The spec's bucket invariant: `0 ≤ tokens ≤ capacity`. -/
def LimiterInv (r : RateLimiter) : Prop :=
  0 ≤ r.tokens ∧ r.tokens ≤ (r.burst : ℚ)

theorem applyLimiterOp_inv (r : RateLimiter) (op : LimiterOp) (now : ℚ)
    (hinv : LimiterInv r) (hlast : r.last ≤ now) (hlim : 0 ≤ r.limit)
    (hwf : op.wf) :
    LimiterInv (applyLimiterOp r op now) ∧ (applyLimiterOp r op now).last = now ∧
    (applyLimiterOp r op now).limit = r.limit ∧
    (applyLimiterOp r op now).burst = r.burst := by
  obtain ⟨h0, hcap⟩ := hinv
  obtain ⟨hr0, hrcap⟩ := refill_bounds r now h0 hcap hlast hlim
  have hb : (((r.refill now).burst : ℤ) : ℚ) = ((r.burst : ℤ) : ℚ) := rfl
  cases op with
  | allow =>
      simp only [applyLimiterOp, RateLimiter.allow]
      split
      · exact ⟨⟨hr0, hrcap⟩, rfl, rfl, rfl⟩
      · rename_i h
        push_neg at h
        refine ⟨⟨by simp only; linarith, by simp only; linarith [hb]⟩, rfl, rfl, rfl⟩
  | allowN n =>
      have hn : (1 : ℚ) ≤ (n : ℚ) := by exact_mod_cast hwf
      simp only [applyLimiterOp, RateLimiter.allowN]
      split
      · exact ⟨⟨hr0, hrcap⟩, rfl, rfl, rfl⟩
      · rename_i h
        push_neg at h
        refine ⟨⟨by simp only; linarith, by simp only; linarith [hb]⟩, rfl, rfl, rfl⟩
  | reserve =>
      simp only [applyLimiterOp, RateLimiter.reserve]
      split
      · rename_i h
        refine ⟨⟨by simp only; linarith, by simp only; linarith [hb]⟩, rfl, rfl, rfl⟩
      · exact ⟨⟨hr0, hrcap⟩, rfl, rfl, rfl⟩
  | reserveN n =>
      have hn : (1 : ℚ) ≤ (n : ℚ) := by exact_mod_cast hwf
      simp only [applyLimiterOp, RateLimiter.reserveN]
      split
      · rename_i h
        refine ⟨⟨by simp only; linarith, by simp only; linarith [hb]⟩, rfl, rfl, rfl⟩
      · exact ⟨⟨hr0, hrcap⟩, rfl, rfl, rfl⟩

theorem runOps_inv : ∀ (l : List (LimiterOp × ℚ)) (r : RateLimiter),
    LimiterInv r → 0 ≤ r.limit →
    (∀ p ∈ l, p.1.wf) → List.Chain' (· ≤ ·) (r.last :: l.map Prod.snd) →
    LimiterInv (runOps r l) ∧ (runOps r l).burst = r.burst := by
  intro l
  induction l with
  | nil => intro r hinv _ _ _; exact ⟨hinv, rfl⟩
  | cons p rest ih =>
      intro r hinv hlim hwf hchain
      obtain ⟨op, t⟩ := p
      simp only [List.map_cons, List.chain'_cons] at hchain
      obtain ⟨hle, hchain⟩ := hchain
      obtain ⟨hinv', hlast', hlim', hburst'⟩ :=
        applyLimiterOp_inv r op t hinv hle hlim (hwf (op, t) (List.mem_cons_self _ _))
      have hrec := ih (applyLimiterOp r op t) hinv' (hlim' ▸ hlim)
        (fun q hq => hwf q (by simp [hq])) (by rw [hlast']; exact hchain)
      simp only [runOps, List.foldl_cons]
      exact ⟨hrec.1, hrec.2.trans hburst'⟩

/-- Claim C5. For every per-key token bucket and every well-formed timed
sequence of `Allow`/`AllowN`/`Reserve`/`ReserveN` operations (each request
is for at least one token, timestamps are non-decreasing, the configured
rate and burst are non-negative), the maintained token count stays within
`[0, capacity]` after every prefix of the sequence: each operation first
refills with `tokens = min(capacity, tokens + elapsed*rate)` and only
decrements when at least the requested amount is available. -/
theorem tokenBucket_token_bound (limit : ℚ) (burst : ℤ) (t0 : ℚ)
    (ops : List (LimiterOp × ℚ))
    (hlim : 0 ≤ limit) (hburst : 0 ≤ burst)
    (hwf : ∀ p ∈ ops, p.1.wf)
    (ht : List.Chain' (· ≤ ·) (t0 :: ops.map Prod.snd)) :
    ∀ l₁ l₂, ops = l₁ ++ l₂ →
      0 ≤ (runOps (newRateLimiter limit burst t0) l₁).tokens ∧
      (runOps (newRateLimiter limit burst t0) l₁).tokens ≤ (burst : ℚ) := by
  intro l₁ l₂ hsplit
  subst hsplit
  have hwf₁ : ∀ p ∈ l₁, p.1.wf := fun p hp => hwf p (List.mem_append_left _ hp)
  have ht₁ : List.Chain' (· ≤ ·) (t0 :: l₁.map Prod.snd) := by
    have : (t0 :: (l₁ ++ l₂).map Prod.snd) =
        (t0 :: l₁.map Prod.snd) ++ l₂.map Prod.snd := by
      simp
    rw [this] at ht
    exact ht.left_of_append
  have hinv0 : LimiterInv (newRateLimiter limit burst t0) :=
    ⟨by simp [newRateLimiter]; exact_mod_cast hburst, by simp [newRateLimiter]⟩
  have h := runOps_inv l₁ (newRateLimiter limit burst t0) hinv0 hlim hwf₁ ht₁
  refine ⟨h.1.1, ?_⟩
  have hb : (runOps (newRateLimiter limit burst t0) l₁).burst = burst := h.2
  have := h.1.2
  rwa [hb] at this

/-- Witness for C5 at a concrete input: `Burst = 1`, `Rate = 2`, two
operations, bound checked after the one-element prefix. -/
theorem tokenBucket_token_bound_witness :
    0 ≤ (runOps (newRateLimiter 2 1 0) [(LimiterOp.allow, 0)]).tokens ∧
    (runOps (newRateLimiter 2 1 0) [(LimiterOp.allow, 0)]).tokens ≤ ((1 : ℤ) : ℚ) :=
  tokenBucket_token_bound 2 1 0 [(LimiterOp.allow, 0), (LimiterOp.reserveN 2, 1)]
    (by norm_num) (by norm_num)
    (by intro p hp
        simp only [List.mem_cons, List.mem_singleton] at hp
        rcases hp with h | h | h
        · subst h; trivial
        · subst h; exact (by norm_num : (1 : ℤ) ≤ 2)
        · cases h)
    (by simp only [List.map_cons, List.map_nil, List.chain'_cons, List.chain'_singleton]
        norm_num)
    [(LimiterOp.allow, 0)] [(LimiterOp.reserveN 2, 1)] rfl

/-- Claim C6. For every key, every `n ≥ 1` and every bucket state with a
positive refill rate, `ReserveN` after the refill step either (a) has at
least `n` tokens available, consumes exactly `n` and returns a zero wait
duration, or (b) has fewer than `n` tokens, leaves the token count
unchanged and returns the wait duration `(n - tokens)/rate` (converted to
nanoseconds, truncating), which is non-negative. -/
theorem reserveN_spec (r : RateLimiter) (n : ℤ) (now : ℚ)
    (hn : 1 ≤ n) (hlim : 0 < r.limit) :
    ((n : ℚ) ≤ (r.refill now).tokens →
      r.reserveN n now =
        (0, { r.refill now with tokens := (r.refill now).tokens - (n : ℚ) })) ∧
    ((r.refill now).tokens < (n : ℚ) →
      r.reserveN n now =
        (toDuration (((n : ℚ) - (r.refill now).tokens) / r.limit), r.refill now) ∧
      0 ≤ (r.reserveN n now).1) := by
  constructor
  · intro h
    simp only [RateLimiter.reserveN, ge_iff_le, if_pos h]
  · intro h
    have hnotge : ¬ ((n : ℚ) ≤ (r.refill now).tokens) := not_le.mpr h
    have heq : r.reserveN n now =
        (toDuration (((n : ℚ) - (r.refill now).tokens) / r.limit), r.refill now) := by
      simp only [RateLimiter.reserveN, ge_iff_le, if_neg hnotge]
      rfl
    refine ⟨heq, ?_⟩
    rw [heq]
    exact toDuration_nonneg (div_nonneg (by linarith) (le_of_lt hlim))

/-- Witness for C6 at a concrete input: a bucket with rate 1, burst 5,
2 tokens, queried with `n = 1` (branch (a)) — the hypotheses of
`reserveN_spec` are discharged at this input. -/
theorem reserveN_spec_witness :
    ((((1 : ℤ) : ℚ) ≤ ((⟨1, 5, 2, 0⟩ : RateLimiter).refill 0).tokens →
      (⟨1, 5, 2, 0⟩ : RateLimiter).reserveN 1 0 =
        (0, { (⟨1, 5, 2, 0⟩ : RateLimiter).refill 0 with
                tokens := ((⟨1, 5, 2, 0⟩ : RateLimiter).refill 0).tokens - ((1 : ℤ) : ℚ) })) ∧
    ((((⟨1, 5, 2, 0⟩ : RateLimiter).refill 0).tokens < ((1 : ℤ) : ℚ) →
      (⟨1, 5, 2, 0⟩ : RateLimiter).reserveN 1 0 =
        (toDuration ((((1 : ℤ) : ℚ) - ((⟨1, 5, 2, 0⟩ : RateLimiter).refill 0).tokens) /
          (⟨1, 5, 2, 0⟩ : RateLimiter).limit), (⟨1, 5, 2, 0⟩ : RateLimiter).refill 0) ∧
      0 ≤ ((⟨1, 5, 2, 0⟩ : RateLimiter).reserveN 1 0).1))) :=
  reserveN_spec ⟨1, 5, 2, 0⟩ 1 0 (by norm_num) (by norm_num)

/-! ## Circuit breaker (`infrastructure/circuitbreaker/gobreaker_adapter.go`)

The Go file implements a self-contained stand-in for `sony/gobreaker`:
type `circuitBreaker` with methods `Execute`, `setState` and `State`,
wrapped per key by `gobreakerAdapter`.  The unused `interval` and
`generation` fields are omitted; the `readyToTrip` and `onStateChange`
closures installed by `getBreaker` are inlined (the latter only logs, so
it has no modelled effect).  `float64` percentage arithmetic in
`readyToTrip` is modelled exactly over `ℚ`. -/

/-- The breaker state strings `"closed"`, `"open"`, `"half-open"`.
`GetState` maps them bijectively onto the port's `State` enumeration, so
one type serves for both layers. -/
inductive BState
  | closed
  | opened
  | halfOpen
deriving DecidableEq, Repr

/-- The `counts` struct (all fields Go `uint32`). -/
structure Counts where
  requests : ℕ
  totalSuccesses : ℕ
  totalFailures : ℕ
  consecutiveSuccesses : ℕ
  consecutiveFailures : ℕ
deriving DecidableEq, Repr

/-- The zero `counts` value installed by `newCircuitBreaker` and by
`setState`. -/
def Counts.zero : Counts := ⟨0, 0, 0, 0, 0⟩

/-- The `readyToTrip` closure installed by `getBreaker`:
`counts.requests >= uint32(RequestVolumeThreshold) &&
float64(counts.totalFailures)/float64(counts.requests)*100 >=
float64(ErrorThresholdPercentage)`. -/
def readyToTrip (volumeThreshold errorPercentage : ℕ) (c : Counts) : Bool :=
  decide (volumeThreshold ≤ c.requests) &&
  decide ((errorPercentage : ℚ) ≤ (c.totalFailures : ℚ) / (c.requests : ℚ) * 100)

/-- The `circuitBreaker` struct.  `volumeThreshold` and `errorPercentage`
carry the configuration captured by the `readyToTrip` closure;
`maxRequests` is `uint32(MaxConcurrentRequests)`; `timeout` is the
configured `SleepWindow` in seconds. -/
structure CircuitBreaker where
  name : String
  maxRequests : ℕ
  timeout : ℚ
  volumeThreshold : ℕ
  errorPercentage : ℕ
  state : BState
  counts : Counts
  lastStateChangeTime : ℚ
deriving DecidableEq, Repr

/-- Go `circuitBreaker.setState`: no-op when the state is unchanged,
otherwise record the new state, stamp `lastStateChangeTime = now` and
reset all counters (the state-change notification only logs). -/
def CircuitBreaker.setState (cb : CircuitBreaker) (s : BState) (now : ℚ) :
    CircuitBreaker :=
  if cb.state = s then cb
  else { cb with state := s, lastStateChangeTime := now, counts := Counts.zero }

/-- Which errors flow out of the breaker layers: `rawOpen` is the inner
`errors.New("circuit breaker is open")`, `openNamed` the adapter's
`fmt.Errorf("circuit breaker '%s' is open", name)`, and `fn e` an error
returned by the wrapped function itself. -/
inductive GoErr (ε : Type)
  | rawOpen
  | openNamed (name : String)
  | fn (e : ε)
deriving DecidableEq, Repr

/-- The failure arm of `circuitBreaker.Execute`'s accounting
(`err != nil`): bump the failure counters and trip `Closed → Open` when
`readyToTrip` fires. -/
def CircuitBreaker.onFailure (cb : CircuitBreaker) (now : ℚ) : CircuitBreaker :=
  let c := cb.counts
  let c : Counts :=
    { requests := u32 (c.requests + 1)
      totalSuccesses := c.totalSuccesses
      totalFailures := u32 (c.totalFailures + 1)
      consecutiveSuccesses := 0
      consecutiveFailures := u32 (c.consecutiveFailures + 1) }
  let cb := { cb with counts := c }
  if cb.state = BState.closed ∧
      readyToTrip cb.volumeThreshold cb.errorPercentage c = true
  then cb.setState BState.opened now else cb

/-- The success arm of `circuitBreaker.Execute`'s accounting
(`err == nil`): bump the success counters and close `HalfOpen → Closed`
when `consecutiveSuccesses >= maxRequests`. -/
def CircuitBreaker.onSuccess (cb : CircuitBreaker) (now : ℚ) : CircuitBreaker :=
  let c := cb.counts
  let c : Counts :=
    { requests := u32 (c.requests + 1)
      totalSuccesses := u32 (c.totalSuccesses + 1)
      totalFailures := c.totalFailures
      consecutiveSuccesses := u32 (c.consecutiveSuccesses + 1)
      consecutiveFailures := 0 }
  let cb := { cb with counts := c }
  if cb.state = BState.halfOpen ∧ cb.maxRequests ≤ c.consecutiveSuccesses
  then cb.setState BState.closed now else cb

/-- Go `circuitBreaker.Execute(req)`: fast-fail if the state reads `open`;
otherwise run `req` (represented by its outcome `fres`/`ferr`), record the
outcome in the counters, evaluate the transition rules, and return the
outcome.  The `requests` increment precedes the success/failure branch in
the source; it is folded into each arm here, with identical counts. -/
def CircuitBreaker.exec {α ε : Type} (cb : CircuitBreaker)
    (fres : Option α) (ferr : Option ε) (now : ℚ) :
    (Option α × Option (GoErr ε)) × CircuitBreaker :=
  if cb.state = BState.opened then ((none, some GoErr.rawOpen), cb)
  else
    match ferr with
    | some e => ((fres, some (GoErr.fn e)), cb.onFailure now)
    | none => ((fres, none), cb.onSuccess now)

/-- Go `circuitBreaker.State`: lazily promote `Open → HalfOpen` when
`time.Since(lastStateChangeTime) > timeout`, then report the state. -/
def CircuitBreaker.stateNow (cb : CircuitBreaker) (now : ℚ) :
    BState × CircuitBreaker :=
  let cb :=
    if cb.state = BState.opened ∧ cb.timeout < now - cb.lastStateChangeTime
    then cb.setState BState.halfOpen now else cb
  (cb.state, cb)

/-- The adapter-level configuration (`application/circuitbreaker.Config`).
The `Timeout` and `HealthCheckInterval` fields only shape the real-time
context passed to the wrapped function and are not part of the modelled
state logic. -/
structure BreakerConfig where
  enabled : Bool
  maxConcurrentRequests : ℕ
  requestVolumeThreshold : ℕ
  errorThresholdPercentage : ℕ
  sleepWindow : ℚ
deriving DecidableEq, Repr

/-- The breaker `getBreaker` creates on first use of a key: fresh
`closed` state, zero counts, `lastStateChangeTime = time.Now()`. -/
def newBreakerFromConfig (cfg : BreakerConfig) (name : String) (now : ℚ) :
    CircuitBreaker :=
  { name := name
    maxRequests := cfg.maxConcurrentRequests
    timeout := cfg.sleepWindow
    volumeThreshold := cfg.requestVolumeThreshold
    errorPercentage := cfg.errorThresholdPercentage
    state := BState.closed
    counts := Counts.zero
    lastStateChangeTime := now }

/-- Go `gobreakerAdapter`: configuration plus the per-key breaker map. -/
structure GobreakerAdapter where
  config : BreakerConfig
  breakers : List (String × CircuitBreaker)
deriving DecidableEq, Repr

/-- Go `gobreakerAdapter.getBreaker`: lazy get-or-create. -/
def GobreakerAdapter.getBreaker (g : GobreakerAdapter) (name : String) (now : ℚ) :
    CircuitBreaker × GobreakerAdapter :=
  match lookupKey g.breakers name with
  | some cb => (cb, g)
  | none =>
      let cb := newBreakerFromConfig g.config name now
      (cb, { g with breakers := putKey g.breakers name cb })

/-- Go `gobreakerAdapter.Execute`: bypass when disabled; otherwise run the
wrapped call under the key's breaker; on any error re-check the breaker's
state (this `State()` call performs the lazy promotion) and replace the
error with the named breaker-open error whenever that state reads `open`.
Each Go pointer mutation of the shared breaker becomes a `putKey`. -/
def GobreakerAdapter.execute {α ε : Type} (g : GobreakerAdapter) (name : String)
    (fres : Option α) (ferr : Option ε) (now : ℚ) :
    (Option α × Option (GoErr ε)) × GobreakerAdapter :=
  if g.config.enabled = false then ((fres, ferr.map GoErr.fn), g)
  else
    let p := g.getBreaker name now
    let breaker := p.1
    let g := p.2
    let q := breaker.exec fres ferr now
    let result := q.1.1
    let err := q.1.2
    let breaker := q.2
    let g := { g with breakers := putKey g.breakers name breaker }
    match err with
    | some err0 =>
        let s := breaker.stateNow now
        let g := { g with breakers := putKey g.breakers name s.2 }
        if s.1 = BState.opened then ((none, some (GoErr.openNamed name)), g)
        else ((none, some err0), g)
    | none => ((result, none), g)

/-- Go `gobreakerAdapter.GetState`: peek semantics for unknown keys (report
`Closed` without creating state); for known keys apply the lazy promotion
via `State()` and report the result. -/
def GobreakerAdapter.getState (g : GobreakerAdapter) (name : String) (now : ℚ) :
    BState × GobreakerAdapter :=
  match lookupKey g.breakers name with
  | none => (BState.closed, g)
  | some breaker =>
      let s := breaker.stateNow now
      (s.1, { g with breakers := putKey g.breakers name s.2 })

/-- Go `gobreakerAdapter.Reset`: delete the key's breaker outright. -/
def GobreakerAdapter.reset (g : GobreakerAdapter) (name : String) :
    GobreakerAdapter :=
  { g with breakers := delKey g.breakers name }

/-- The state recorded for `name` in the adapter's map, `closed` if
absent — used to phrase "the breaker's state at entry / after the call". -/
def breakerStateIn (g : GobreakerAdapter) (name : String) : BState :=
  match lookupKey g.breakers name with
  | some cb => cb.state
  | none => BState.closed

/-! ### Claim C2: `HalfOpen → Open` on a single probe failure -/

/-- A breaker probing in `HalfOpen` (spec defaults: volume threshold 20,
error threshold 50, probe budget 3, sleep window 5s). -/
def cbHalfOpenEx : CircuitBreaker :=
  { name := "svc"
    maxRequests := 3
    timeout := 5
    volumeThreshold := 20
    errorPercentage := 50
    state := BState.halfOpen
    counts := Counts.zero
    lastStateChangeTime := 0 }

/-- Claim C2, evaluated at the failing input.  The spec requires a single
failure while `HalfOpen` to transition the breaker back to `Open`
immediately; in the code the failure arm of `circuitBreaker.Execute` only
trips from `Closed` (`cb.state == stateClosed && cb.readyToTrip(c)`), so a
failed probe leaves the breaker in `HalfOpen` with its failure counters
merely incremented, and no transition (hence no counter reset, no
`lastStateChange` stamp) ever happens. -/
theorem halfOpen_failure_keeps_halfOpen :
    ((cbHalfOpenEx.exec (none : Option Unit) (some ()) 1).2.state = BState.halfOpen) ∧
    ((cbHalfOpenEx.exec (none : Option Unit) (some ()) 1).2.counts.consecutiveFailures = 1) ∧
    ((cbHalfOpenEx.exec (none : Option Unit) (some ()) 1).2.lastStateChangeTime = 0) ∧
    BState.halfOpen ≠ BState.opened := by
  decide

/-! ### Claim C3: lazy `Open → HalfOpen` promotion -/

/-- A breaker sitting in `Open` since time 0 with a 5-second sleep
window. -/
def cbOpenEx : CircuitBreaker :=
  { name := "svc"
    maxRequests := 3
    timeout := 5
    volumeThreshold := 20
    errorPercentage := 50
    state := BState.opened
    counts := Counts.zero
    lastStateChangeTime := 0 }

/-- An enabled adapter already holding `cbOpenEx` under key `"svc"`. -/
def gOpenEx : GobreakerAdapter :=
  { config :=
      { enabled := true
        maxConcurrentRequests := 3
        requestVolumeThreshold := 20
        errorThresholdPercentage := 50
        sleepWindow := 5 }
    breakers := [("svc", cbOpenEx)] }

/-- Claim C3 counterexample.  At time 10 the sleep window (5s) has long
elapsed since the breaker opened at time 0, yet `circuitBreaker.Execute`
reads the stale `Open` state and fast-fails without applying the lazy
promotion and without consulting the wrapped function's outcome (here a
success), leaving the breaker untouched; only `State()` (the operation
`GetState` uses) performs the promotion. -/
theorem execute_open_after_window_fastfails :
    (cbOpenEx.exec (some 7 : Option ℕ) (none : Option Unit) 10).1
        = (none, some GoErr.rawOpen) ∧
    (cbOpenEx.exec (some 7 : Option ℕ) (none : Option Unit) 10).2 = cbOpenEx ∧
    cbOpenEx.timeout < 10 - cbOpenEx.lastStateChangeTime ∧
    (cbOpenEx.stateNow 10).1 = BState.halfOpen := by
  refine ⟨?_, ?_, ?_, ?_⟩
  · simp [CircuitBreaker.exec, cbOpenEx]
  · simp [CircuitBreaker.exec, cbOpenEx]
  · norm_num [cbOpenEx]
  · simp only [CircuitBreaker.stateNow, CircuitBreaker.setState, cbOpenEx]
    norm_num
    simp

/-- Claim C3, amended.  The lazy `Open → HalfOpen` promotion
(`now − lastStateChange > SleepWindow`) is applied by `State` — hence by
`GetState` — but *not* by `Execute`'s entry check: an `Execute` call
arriving after the sleep window still fast-fails (it returns the raw
breaker-open error for every outcome of the wrapped function and leaves
the breaker unchanged at the inner level); at the adapter level the
`State()` call on its error path then performs the promotion, so the
breaker the adapter stores afterwards is `HalfOpen` and subsequent calls
are admitted. -/
theorem lazy_promotion_on_state_query (cb : CircuitBreaker) (now : ℚ)
    (g : GobreakerAdapter) (name : String) (fres ferr : Option Unit)
    (hopen : cb.state = BState.opened)
    (helapsed : cb.timeout < now - cb.lastStateChangeTime)
    (hen : g.config.enabled = true)
    (hlook : lookupKey g.breakers name = some cb) :
    (cb.stateNow now).1 = BState.halfOpen ∧
    (cb.exec fres ferr now).1 = (none, some GoErr.rawOpen) ∧
    (cb.exec fres ferr now).2 = cb ∧
    (g.execute name fres ferr now).1 = (none, some GoErr.rawOpen) ∧
    breakerStateIn (g.execute name fres ferr now).2 name = BState.halfOpen := by
  have hexec : cb.exec fres ferr now = ((none, some GoErr.rawOpen), cb) := by
    simp [CircuitBreaker.exec, hopen]
  have hset : (cb.setState BState.halfOpen now).state = BState.halfOpen := by
    simp [CircuitBreaker.setState, hopen]
  have hstate : cb.stateNow now = (BState.halfOpen,
      cb.setState BState.halfOpen now) := by
    simp only [CircuitBreaker.stateNow, hopen, helapsed, and_self, if_true,
      true_and, if_pos]
    exact congrArg (·, cb.setState BState.halfOpen now) hset
  refine ⟨by rw [hstate], by rw [hexec], by rw [hexec], ?_, ?_⟩
  · simp only [GobreakerAdapter.execute, hen, Bool.true_eq_false, if_false,
      GobreakerAdapter.getBreaker, hlook, hexec, hstate]
    simp
  · simp only [GobreakerAdapter.execute, hen, Bool.true_eq_false, if_false,
      GobreakerAdapter.getBreaker, hlook, hexec, hstate]
    simp [breakerStateIn, lookupKey_putKey_self, hset]

/-- Witness for C3's amended theorem at the concrete `Open` breaker. -/
theorem lazy_promotion_on_state_query_witness :
    (cbOpenEx.stateNow 10).1 = BState.halfOpen ∧
    (cbOpenEx.exec (none : Option Unit) (none : Option Unit) 10).1
        = (none, some GoErr.rawOpen) ∧
    (cbOpenEx.exec (none : Option Unit) (none : Option Unit) 10).2 = cbOpenEx ∧
    (gOpenEx.execute "svc" (none : Option Unit) (none : Option Unit) 10).1
        = (none, some GoErr.rawOpen) ∧
    breakerStateIn (gOpenEx.execute "svc" (none : Option Unit) (none : Option Unit) 10).2
        "svc" = BState.halfOpen :=
  lazy_promotion_on_state_query cbOpenEx 10 gOpenEx "svc" none none rfl
    (by norm_num [cbOpenEx]) rfl (by decide)

/-! ### Claim C4: the `Closed → Open` trip condition -/

theorem u32_le (n : ℕ) : u32 n ≤ n := Nat.mod_le _ _

theorem u32_eq_of_lt {n : ℕ} (h : n < 2 ^ 32) : u32 n = n := Nat.mod_eq_of_lt h

/-- The spec's scenario configuration: `RequestVolumeThreshold = 20`,
`ErrorThresholdPercentage = 50`. -/
def cfgVol20 : BreakerConfig :=
  { enabled := true
    maxConcurrentRequests := 100
    requestVolumeThreshold := 20
    errorThresholdPercentage := 50
    sleepWindow := 5 }

/-- A fresh breaker for the scenario, created at time 0. -/
def cb20 : CircuitBreaker := newBreakerFromConfig cfgVol20 "svc" 0

/-- Feed a sequence of wrapped-call outcomes (`true` = success, `false` =
failure) through `circuitBreaker.Execute` at a fixed instant. -/
def feedOutcomes (cb : CircuitBreaker) (l : List Bool) (now : ℚ) :
    CircuitBreaker :=
  l.foldl (fun c ok =>
    (c.exec (none : Option Unit) (if ok then none else some ()) now).2) cb

theorem exec_state_not_open {α ε : Type} (cb : CircuitBreaker) (fres : Option α)
    (e : ε) (now : ℚ) (h : cb.state ≠ BState.opened) :
    cb.exec fres (some e) now = ((fres, some (GoErr.fn e)), cb.onFailure now) := by
  simp [CircuitBreaker.exec, h]

theorem exec_state_not_open_ok {α ε : Type} (cb : CircuitBreaker) (fres : Option α)
    (now : ℚ) (h : cb.state ≠ BState.opened) :
    cb.exec fres (none : Option ε) now = ((fres, none), cb.onSuccess now) := by
  simp [CircuitBreaker.exec, h]

theorem onSuccess_state_closed (cb : CircuitBreaker) (now : ℚ)
    (h : cb.state = BState.closed) :
    cb.onSuccess now = { cb with counts :=
      { requests := u32 (cb.counts.requests + 1)
        totalSuccesses := u32 (cb.counts.totalSuccesses + 1)
        totalFailures := cb.counts.totalFailures
        consecutiveSuccesses := u32 (cb.counts.consecutiveSuccesses + 1)
        consecutiveFailures := 0 } } := by
  simp [CircuitBreaker.onSuccess, h]

theorem onFailure_below_volume (cb : CircuitBreaker) (now : ℚ)
    (hvol : cb.counts.requests + 1 < cb.volumeThreshold) :
    cb.onFailure now = { cb with counts :=
      { requests := u32 (cb.counts.requests + 1)
        totalSuccesses := cb.counts.totalSuccesses
        totalFailures := u32 (cb.counts.totalFailures + 1)
        consecutiveSuccesses := 0
        consecutiveFailures := u32 (cb.counts.consecutiveFailures + 1) } } := by
  have hle := u32_le (cb.counts.requests + 1)
  have hrt : readyToTrip cb.volumeThreshold cb.errorPercentage
      { requests := u32 (cb.counts.requests + 1)
        totalSuccesses := cb.counts.totalSuccesses
        totalFailures := u32 (cb.counts.totalFailures + 1)
        consecutiveSuccesses := 0
        consecutiveFailures := u32 (cb.counts.consecutiveFailures + 1) }
      = false := by
    unfold readyToTrip
    have h : ¬ (cb.volumeThreshold ≤ u32 (cb.counts.requests + 1)) := by omega
    simp [h]
  simp [CircuitBreaker.onFailure, hrt]

/-- The percentage test of `readyToTrip` at 20 requests and error
threshold 50, over exact rationals: `totalFailures/20*100 ≥ 50` holds iff
at least 10 of the 20 requests failed. -/
theorem trip_percent_iff (f : ℕ) :
    (((50 : ℕ) : ℚ) ≤ (f : ℚ) / ((20 : ℕ) : ℚ) * 100) ↔ 10 ≤ f := by
  rw [show ((50 : ℕ) : ℚ) = 50 by norm_num, show ((20 : ℕ) : ℚ) = 20 by norm_num,
    div_mul_eq_mul_div, le_div_iff (by norm_num : (0 : ℚ) < 20)]
  rw [show (50 : ℚ) * 20 = ((1000 : ℕ) : ℚ) by norm_num,
    show (f : ℚ) * 100 = ((f * 100 : ℕ) : ℚ) by push_cast; ring]
  rw [Nat.cast_le]
  omega

theorem onFailure_at_request_20 (cb : CircuitBreaker) (now : ℚ)
    (hstate : cb.state = BState.closed)
    (hvol : cb.volumeThreshold = 20) (herr : cb.errorPercentage = 50)
    (hreq : cb.counts.requests = 19) (hfl : cb.counts.totalFailures ≤ 19) :
    (10 ≤ cb.counts.totalFailures + 1 →
      (cb.onFailure now).state = BState.opened ∧
      (cb.onFailure now).lastStateChangeTime = now ∧
      (cb.onFailure now).timeout = cb.timeout) ∧
    (cb.counts.totalFailures + 1 ≤ 9 →
      (cb.onFailure now).state = BState.closed ∧
      (cb.onFailure now).timeout = cb.timeout ∧
      (cb.onFailure now).lastStateChangeTime = cb.lastStateChangeTime) := by
  have h20 : u32 (cb.counts.requests + 1) = 20 := by
    rw [hreq]
    exact u32_eq_of_lt (by norm_num)
  have hf1 : u32 (cb.counts.totalFailures + 1) = cb.counts.totalFailures + 1 :=
    u32_eq_of_lt (by omega)
  have hrt : readyToTrip cb.volumeThreshold cb.errorPercentage
      { requests := u32 (cb.counts.requests + 1)
        totalSuccesses := cb.counts.totalSuccesses
        totalFailures := u32 (cb.counts.totalFailures + 1)
        consecutiveSuccesses := 0
        consecutiveFailures := u32 (cb.counts.consecutiveFailures + 1) }
      = decide (10 ≤ cb.counts.totalFailures + 1) := by
    unfold readyToTrip
    rw [hvol, herr]
    simp only [h20, hf1]
    rw [show (decide ((20 : ℕ) ≤ 20)) = true by decide, Bool.true_and]
    exact decide_eq_decide.mpr (trip_percent_iff _)
  constructor
  · intro h10
    have hcond : readyToTrip cb.volumeThreshold cb.errorPercentage
        { requests := u32 (cb.counts.requests + 1)
          totalSuccesses := cb.counts.totalSuccesses
          totalFailures := u32 (cb.counts.totalFailures + 1)
          consecutiveSuccesses := 0
          consecutiveFailures := u32 (cb.counts.consecutiveFailures + 1) }
        = true := by
      rw [hrt]
      exact decide_eq_true h10
    simp [CircuitBreaker.onFailure, CircuitBreaker.setState, hstate, hcond]
  · intro h9
    have hcond : readyToTrip cb.volumeThreshold cb.errorPercentage
        { requests := u32 (cb.counts.requests + 1)
          totalSuccesses := cb.counts.totalSuccesses
          totalFailures := u32 (cb.counts.totalFailures + 1)
          consecutiveSuccesses := 0
          consecutiveFailures := u32 (cb.counts.consecutiveFailures + 1) }
        = false := by
      rw [hrt]
      simp
      omega
    simp [CircuitBreaker.onFailure, hstate, hcond]

theorem feed_stays_closed : ∀ (l : List Bool) (cb : CircuitBreaker) (now : ℚ),
    cb.state = BState.closed →
    cb.counts.requests + l.length ≤ 19 →
    cb.counts.totalFailures ≤ cb.counts.requests →
    cb.volumeThreshold = 20 →
    (feedOutcomes cb l now).state = BState.closed ∧
    (feedOutcomes cb l now).counts.requests = cb.counts.requests + l.length ∧
    (feedOutcomes cb l now).counts.totalFailures
        = cb.counts.totalFailures + l.count false ∧
    (feedOutcomes cb l now).volumeThreshold = cb.volumeThreshold ∧
    (feedOutcomes cb l now).errorPercentage = cb.errorPercentage ∧
    (feedOutcomes cb l now).timeout = cb.timeout ∧
    (feedOutcomes cb l now).lastStateChangeTime = cb.lastStateChangeTime
  | [], cb, now, h1, _h2, _h3, _h4 => by
      simp [feedOutcomes]
      exact h1
  | b :: t, cb, now, h1, h2, h3, h4 => by
      have hlen : cb.counts.requests + 1 + t.length ≤ 19 := by
        simp only [List.length_cons] at h2
        omega
      have hr32 : cb.counts.requests + 1 < 2 ^ 32 := by omega
      have hur : u32 (cb.counts.requests + 1) = cb.counts.requests + 1 :=
        u32_eq_of_lt hr32
      have hnopen : cb.state ≠ BState.opened := by simp [h1]
      cases b with
      | true =>
          have hsucc := onSuccess_state_closed cb now h1
          have hstep : feedOutcomes cb (true :: t) now =
              feedOutcomes (cb.onSuccess now) t now := by
            unfold feedOutcomes
            rw [List.foldl_cons]
            congr 1
            calc (cb.exec (none : Option Unit)
                    (if true = true then none else some ()) now).2
                = (cb.exec (none : Option Unit) (none : Option Unit) now).2 := rfl
              _ = cb.onSuccess now := by
                  rw [exec_state_not_open_ok cb (none : Option Unit) now hnopen]
          have hstate' : (cb.onSuccess now).state = BState.closed := by
            rw [hsucc]; exact h1
          have hreq' : (cb.onSuccess now).counts.requests
              = cb.counts.requests + 1 := by
            rw [hsucc]; exact hur
          have hfl' : (cb.onSuccess now).counts.totalFailures
              = cb.counts.totalFailures := by rw [hsucc]
          have hvol' : (cb.onSuccess now).volumeThreshold = cb.volumeThreshold := by
            rw [hsucc]
          have herr' : (cb.onSuccess now).errorPercentage = cb.errorPercentage := by
            rw [hsucc]
          have htio' : (cb.onSuccess now).timeout = cb.timeout := by rw [hsucc]
          have hlsc' : (cb.onSuccess now).lastStateChangeTime
              = cb.lastStateChangeTime := by rw [hsucc]
          obtain ⟨i1, i2, i3, i4, i5, i6, i7⟩ :=
            feed_stays_closed t (cb.onSuccess now) now hstate'
              (by rw [hreq']; omega) (by rw [hfl', hreq']; omega)
              (by rw [hvol']; exact h4)
          rw [hstep]
          refine ⟨i1, ?_, ?_, i4.trans hvol', i5.trans herr', i6.trans htio',
            i7.trans hlsc'⟩
          · rw [i2, hreq']
            simp only [List.length_cons]
            omega
          · rw [i3, hfl']
            simp
      | false =>
          have hvol : cb.counts.requests + 1 < cb.volumeThreshold := by
            rw [h4]; omega
          have hfail := onFailure_below_volume cb now hvol
          have hf32 : cb.counts.totalFailures + 1 < 2 ^ 32 := by omega
          have huf : u32 (cb.counts.totalFailures + 1)
              = cb.counts.totalFailures + 1 := u32_eq_of_lt hf32
          have hstep : feedOutcomes cb (false :: t) now =
              feedOutcomes (cb.onFailure now) t now := by
            unfold feedOutcomes
            rw [List.foldl_cons]
            congr 1
            calc (cb.exec (none : Option Unit)
                    (if false = true then none else some ()) now).2
                = (cb.exec (none : Option Unit) (some ()) now).2 := rfl
              _ = cb.onFailure now := by
                  rw [exec_state_not_open cb (none : Option Unit) () now hnopen]
          have hstate' : (cb.onFailure now).state = BState.closed := by
            rw [hfail]; exact h1
          have hreq' : (cb.onFailure now).counts.requests
              = cb.counts.requests + 1 := by
            rw [hfail]; exact hur
          have hfl' : (cb.onFailure now).counts.totalFailures
              = cb.counts.totalFailures + 1 := by
            rw [hfail]; exact huf
          have hvol' : (cb.onFailure now).volumeThreshold = cb.volumeThreshold := by
            rw [hfail]
          have herr' : (cb.onFailure now).errorPercentage = cb.errorPercentage := by
            rw [hfail]
          have htio' : (cb.onFailure now).timeout = cb.timeout := by rw [hfail]
          have hlsc' : (cb.onFailure now).lastStateChangeTime
              = cb.lastStateChangeTime := by rw [hfail]
          obtain ⟨i1, i2, i3, i4, i5, i6, i7⟩ :=
            feed_stays_closed t (cb.onFailure now) now hstate'
              (by rw [hreq']; omega) (by rw [hfl', hreq']; omega)
              (by rw [hvol']; exact h4)
          rw [hstep]
          refine ⟨i1, ?_, ?_, i4.trans hvol', i5.trans herr', i6.trans htio',
            i7.trans hlsc'⟩
          · rw [i2, hreq']
            simp only [List.length_cons]
            omega
          · rw [i3, hfl']
            simp only [List.count_cons]
            simp
            omega

theorem stateNow_of_not_open (cb : CircuitBreaker) (now : ℚ)
    (h : cb.state ≠ BState.opened) : (cb.stateNow now).1 = cb.state := by
  simp [CircuitBreaker.stateNow, h]

theorem stateNow_open_within_window (cb : CircuitBreaker) (now : ℚ)
    (h : cb.state = BState.opened)
    (hwin : ¬ cb.timeout < now - cb.lastStateChangeTime) :
    (cb.stateNow now).1 = BState.opened := by
  simp [CircuitBreaker.stateNow, h, hwin]

/-- The first nineteen outcomes of the counterexample run: ten failures
then nine successes. -/
def l19ce : List Bool := List.replicate 10 false ++ List.replicate 9 true

/-- Claim C4 counterexample.  The claim (and spec) say the trip condition is
evaluated after **each** request, so 20 requests with 10 failures must
leave the breaker `Open`; the code evaluates `readyToTrip` only in the
failure arm, so when the 20th request *succeeds* after 10 early failures
the breaker stays `Closed` even though `requests = 20` and
`totalFailures = 10` satisfy the trip condition. -/
theorem feedOutcomes_append_one (cb : CircuitBreaker) (l : List Bool) (b : Bool)
    (now : ℚ) :
    feedOutcomes cb (l ++ [b]) now =
      ((feedOutcomes cb l now).exec (none : Option Unit)
        (if b then none else some ()) now).2 := by
  unfold feedOutcomes
  rw [List.foldl_append]
  rfl

theorem cb20_state : cb20.state = BState.closed := rfl

theorem cb20_requests : cb20.counts.requests = 0 := rfl

theorem cb20_failures : cb20.counts.totalFailures = 0 := rfl

theorem cb20_volume : cb20.volumeThreshold = 20 := rfl

theorem cb20_errpct : cb20.errorPercentage = 50 := rfl

theorem l19ce_length : l19ce.length = 19 := by
  simp [l19ce]

theorem l19ce_count : l19ce.count false = 10 := by
  simp [l19ce]

theorem trip_not_evaluated_after_success :
    (feedOutcomes cb20 (l19ce ++ [true]) 0).counts.requests = 20 ∧
    (feedOutcomes cb20 (l19ce ++ [true]) 0).counts.totalFailures = 10 ∧
    ((feedOutcomes cb20 (l19ce ++ [true]) 0).stateNow 0).1 = BState.closed := by
  have hfeed := feed_stays_closed l19ce cb20 0 cb20_state
    (by rw [cb20_requests, l19ce_length]) (by rw [cb20_failures, cb20_requests])
    cb20_volume
  obtain ⟨hst, hreq, hfl, _, _, _, _⟩ := hfeed
  have hnopen : (feedOutcomes cb20 l19ce 0).state ≠ BState.opened := by
    rw [hst]; exact fun h => nomatch h
  have hstep : feedOutcomes cb20 (l19ce ++ [true]) 0 =
      (feedOutcomes cb20 l19ce 0).onSuccess 0 := by
    rw [feedOutcomes_append_one]
    calc ((feedOutcomes cb20 l19ce 0).exec (none : Option Unit)
            (if true then none else some ()) 0).2
        = ((feedOutcomes cb20 l19ce 0).exec (none : Option Unit)
            (none : Option Unit) 0).2 := rfl
      _ = (feedOutcomes cb20 l19ce 0).onSuccess 0 := by
          rw [exec_state_not_open_ok _ _ _ hnopen]
  have hreq19 : (feedOutcomes cb20 l19ce 0).counts.requests = 19 := by
    rw [hreq, cb20_requests, l19ce_length]
  have hfl10 : (feedOutcomes cb20 l19ce 0).counts.totalFailures = 10 := by
    rw [hfl, cb20_failures, l19ce_count]
  have hsucc := onSuccess_state_closed (feedOutcomes cb20 l19ce 0) 0 hst
  refine ⟨?_, ?_, ?_⟩
  · rw [hstep, hsucc]
    show u32 ((feedOutcomes cb20 l19ce 0).counts.requests + 1) = 20
    rw [hreq19]
    exact u32_eq_of_lt (by norm_num)
  · rw [hstep, hsucc]
    show (feedOutcomes cb20 l19ce 0).counts.totalFailures = 10
    exact hfl10
  · rw [hstep]
    have hpreserve : ((feedOutcomes cb20 l19ce 0).onSuccess 0).state
        = (feedOutcomes cb20 l19ce 0).state := by
      rw [hsucc]
    have hst' : ((feedOutcomes cb20 l19ce 0).onSuccess 0).state = BState.closed :=
      hpreserve.trans hst
    rw [stateNow_of_not_open _ _ (by rw [hst']; exact fun h => nomatch h)]
    exact hst'

theorem cb20_timeout : cb20.timeout = 5 := rfl

/-- Claim C4, amended.  The trip condition
(`requests ≥ RequestVolumeThreshold` and
`totalFailures/requests*100 ≥ ErrorThresholdPercentage`) is evaluated only
after each **failed** request.  With `RequestVolumeThreshold = 20` and
`ErrorThresholdPercentage = 50`, after exactly 20 requests whose last is a
failure and of which at least 10 failed, `GetState` (the `State` query)
returns `Open` immediately after the 20th request; with 9 or fewer
failures among the 20 it remains `Closed` (and, per the counterexample,
it also remains `Closed` when the 20th request succeeds, however many
failed before). -/
theorem breaker_trip_condition (l : List Bool) (hlen : l.length = 20) :
    (l.getLast? = some false → 10 ≤ l.count false →
      ((feedOutcomes cb20 l 0).stateNow 0).1 = BState.opened) ∧
    (l.count false ≤ 9 →
      ((feedOutcomes cb20 l 0).stateNow 0).1 = BState.closed) := by
  have hne : l ≠ [] := by
    intro h
    rw [h] at hlen
    exact absurd hlen (by norm_num)
  have hsplit : l.dropLast ++ [l.getLast hne] = l :=
    List.dropLast_append_getLast hne
  have hlen' : l.dropLast.length = 19 := by
    have := List.length_dropLast l
    omega
  obtain ⟨hst, hreq, hfl, i4, i5, i6, i7⟩ :=
    feed_stays_closed l.dropLast cb20 0 cb20_state
      (by rw [cb20_requests, hlen']) (by rw [cb20_failures, cb20_requests])
      cb20_volume
  have hnopen : (feedOutcomes cb20 l.dropLast 0).state ≠ BState.opened := by
    rw [hst]; exact fun h => nomatch h
  have hreq19 : (feedOutcomes cb20 l.dropLast 0).counts.requests = 19 := by
    rw [hreq, cb20_requests, hlen']
  have hflcount : (feedOutcomes cb20 l.dropLast 0).counts.totalFailures
      = l.dropLast.count false := by
    rw [hfl, cb20_failures]
    exact Nat.zero_add _
  have hfl19 : (feedOutcomes cb20 l.dropLast 0).counts.totalFailures ≤ 19 := by
    rw [hflcount]
    calc l.dropLast.count false ≤ l.dropLast.length := List.count_le_length _ _
      _ = 19 := hlen'
  have hvolA : (feedOutcomes cb20 l.dropLast 0).volumeThreshold = 20 :=
    i4.trans cb20_volume
  have herrA : (feedOutcomes cb20 l.dropLast 0).errorPercentage = 50 :=
    i5.trans cb20_errpct
  have htimeA : (feedOutcomes cb20 l.dropLast 0).timeout = 5 :=
    i6.trans cb20_timeout
  have htrip := onFailure_at_request_20 (feedOutcomes cb20 l.dropLast 0) 0
    hst hvolA herrA hreq19 hfl19
  constructor
  · intro hlastb h10
    have hbf : l.getLast hne = false := by
      have hq := List.getLast?_eq_getLast l hne
      rw [hq] at hlastb
      exact Option.some_inj.mp hlastb
    have hcount : l.count false = l.dropLast.count false + 1 := by
      conv_lhs => rw [← hsplit]
      rw [List.count_append, hbf]
      simp
    have hstep : feedOutcomes cb20 l 0 =
        (feedOutcomes cb20 l.dropLast 0).onFailure 0 := by
      conv_lhs => rw [← hsplit]
      rw [feedOutcomes_append_one, hbf]
      calc ((feedOutcomes cb20 l.dropLast 0).exec (none : Option Unit)
              (if false then none else some ()) 0).2
          = ((feedOutcomes cb20 l.dropLast 0).exec (none : Option Unit)
              (some ()) 0).2 := rfl
        _ = (feedOutcomes cb20 l.dropLast 0).onFailure 0 := by
            rw [exec_state_not_open _ _ _ _ hnopen]
    obtain ⟨ht1, ht2, ht3⟩ := htrip.1 (by rw [hflcount]; omega)
    rw [hstep]
    refine stateNow_open_within_window _ 0 ht1 ?_
    rw [ht2, ht3, htimeA]
    norm_num
  · intro h9
    rcases Bool.dichotomy (l.getLast hne) with hbf | hbt
    · have hcount : l.count false = l.dropLast.count false + 1 := by
        conv_lhs => rw [← hsplit]
        rw [List.count_append, hbf]
        simp
      have hstep : feedOutcomes cb20 l 0 =
          (feedOutcomes cb20 l.dropLast 0).onFailure 0 := by
        conv_lhs => rw [← hsplit]
        rw [feedOutcomes_append_one, hbf]
        calc ((feedOutcomes cb20 l.dropLast 0).exec (none : Option Unit)
                (if false then none else some ()) 0).2
            = ((feedOutcomes cb20 l.dropLast 0).exec (none : Option Unit)
                (some ()) 0).2 := rfl
          _ = (feedOutcomes cb20 l.dropLast 0).onFailure 0 := by
              rw [exec_state_not_open _ _ _ _ hnopen]
      obtain ⟨hc1, _, _⟩ := htrip.2 (by rw [hflcount]; omega)
      rw [hstep]
      rw [stateNow_of_not_open _ _ (by rw [hc1]; exact fun h => nomatch h)]
      exact hc1
    · have hstep : feedOutcomes cb20 l 0 =
          (feedOutcomes cb20 l.dropLast 0).onSuccess 0 := by
        conv_lhs => rw [← hsplit]
        rw [feedOutcomes_append_one, hbt]
        calc ((feedOutcomes cb20 l.dropLast 0).exec (none : Option Unit)
                (if true then none else some ()) 0).2
            = ((feedOutcomes cb20 l.dropLast 0).exec (none : Option Unit)
                (none : Option Unit) 0).2 := rfl
          _ = (feedOutcomes cb20 l.dropLast 0).onSuccess 0 := by
              rw [exec_state_not_open_ok _ _ _ hnopen]
      have hpres : ((feedOutcomes cb20 l.dropLast 0).onSuccess 0).state
          = (feedOutcomes cb20 l.dropLast 0).state := by
        rw [onSuccess_state_closed _ _ hst]
      have hc1 : ((feedOutcomes cb20 l.dropLast 0).onSuccess 0).state
          = BState.closed := hpres.trans hst
      rw [hstep]
      rw [stateNow_of_not_open _ _ (by rw [hc1]; exact fun h => nomatch h)]
      exact hc1

/-- The witness run for the trip branch: 9 failures, 10 successes, then a
20th failing request. -/
def lTrip : List Bool :=
  List.replicate 9 false ++ (List.replicate 10 true ++ [false])

/-- The witness run for the no-trip branch: 9 failures then 11
successes. -/
def lNoTrip : List Bool := List.replicate 9 false ++ List.replicate 11 true

/-- Witness for C4's amended theorem at two concrete 20-request runs. -/
theorem breaker_trip_condition_witness :
    ((feedOutcomes cb20 lTrip 0).stateNow 0).1 = BState.opened ∧
    ((feedOutcomes cb20 lNoTrip 0).stateNow 0).1 = BState.closed :=
  ⟨(breaker_trip_condition lTrip (by decide)).1 (by decide) (by decide),
   (breaker_trip_condition lNoTrip (by decide)).2 (by decide)⟩

/-! ### Claim C1: error propagation through `gobreakerAdapter.Execute` -/

theorem stateNow_snd_state (cb : CircuitBreaker) (now : ℚ) :
    (cb.stateNow now).2.state = (cb.stateNow now).1 := rfl

/-- A configuration whose breaker trips on a single failure
(`RequestVolumeThreshold = 1`, `ErrorThresholdPercentage = 50`). -/
def cfgC1 : BreakerConfig :=
  { enabled := true
    maxConcurrentRequests := 1
    requestVolumeThreshold := 1
    errorThresholdPercentage := 50
    sleepWindow := 5 }

/-- An enabled adapter with no breakers yet. -/
def gEmptyC1 : GobreakerAdapter := { config := cfgC1, breakers := [] }

/-- The breaker of `cfgC1` right after its first (failed) call tripped
it. -/
def cbTrip : CircuitBreaker :=
  { name := "k"
    maxRequests := 1
    timeout := 5
    volumeThreshold := 1
    errorPercentage := 50
    state := BState.opened
    counts := Counts.zero
    lastStateChangeTime := 0 }

theorem cbC1_onFailure :
    (newBreakerFromConfig cfgC1 "k" 0).onFailure 0 = cbTrip := by
  have h2 : ((50 : ℕ) : ℚ) ≤ ((1 : ℕ) : ℚ) / ((1 : ℕ) : ℚ) * 100 := by
    push_cast
    norm_num
  have hrt : readyToTrip 1 50
      { requests := 1, totalSuccesses := 0, totalFailures := 1,
        consecutiveSuccesses := 0, consecutiveFailures := 1 } = true := by
    unfold readyToTrip
    rw [Bool.and_eq_true, decide_eq_true_eq, decide_eq_true_eq]
    exact ⟨le_refl _, h2⟩
  simp [CircuitBreaker.onFailure, newBreakerFromConfig, cfgC1, Counts.zero, u32,
    CircuitBreaker.setState, hrt, cbTrip]

theorem cbTrip_stateNow : cbTrip.stateNow 0 = (BState.opened, cbTrip) := by
  unfold CircuitBreaker.stateNow
  rw [if_neg]
  · rfl
  · intro hand
    have h5 := hand.2
    norm_num [cbTrip] at h5

/-- Claim C1 counterexample.  With a fresh (hence `Closed`-at-entry) breaker
under `RequestVolumeThreshold = 1`, a single failed call trips the breaker
during the same `Execute`; the adapter's error path then sees
`breaker.State() == open` and returns the breaker-specific
`fmt.Errorf("circuit breaker '%s' is open", name)` *instead of* the
wrapped function's own error, contradicting the claim that a
non-fast-failed `Execute` returns `fn`'s error unchanged. -/
theorem execute_error_replaced_when_trip :
    breakerStateIn gEmptyC1 "k" = BState.closed ∧
    (gEmptyC1.execute "k" (none : Option Unit) (some 0 : Option ℕ) 0).1
      = (none, some (GoErr.openNamed "k")) ∧
    some (GoErr.openNamed "k") ≠ some (GoErr.fn (0 : ℕ)) := by
  have hgb : gEmptyC1.getBreaker "k" 0 =
      (newBreakerFromConfig cfgC1 "k" 0,
       { config := cfgC1,
         breakers := [("k", newBreakerFromConfig cfgC1 "k" 0)] }) := rfl
  have hnopen : (newBreakerFromConfig cfgC1 "k" 0).state ≠ BState.opened :=
    fun h => nomatch h
  have hexec : (newBreakerFromConfig cfgC1 "k" 0).exec (none : Option Unit)
      (some 0 : Option ℕ) 0 =
      ((none, some (GoErr.fn 0)), (newBreakerFromConfig cfgC1 "k" 0).onFailure 0) :=
    exec_state_not_open _ _ _ _ hnopen
  refine ⟨rfl, ?_, by simp⟩
  simp only [GobreakerAdapter.execute]
  rw [if_neg (fun h => nomatch h)]
  simp only [hgb, hexec, cbC1_onFailure, cbTrip_stateNow]
  simp

/-- Claim C1, amended.  When the breaker is enabled and not `Open` at entry
(so `Execute` does not fast-fail), `Execute` returns `fn`'s result with
`nil` error on success; on failure it returns `fn`'s error verbatim
*unless* the breaker reads `Open` when re-checked after recording the
failure (i.e. this very failure tripped it), in which case the
breaker-specific named open error replaces `fn`'s error. -/
theorem execute_propagates_fn_outcome {α ε : Type} (g : GobreakerAdapter)
    (name : String) (fres : Option α) (e : ε) (now : ℚ)
    (hen : g.config.enabled = true)
    (hentry : (g.getBreaker name now).1.state ≠ BState.opened) :
    (GobreakerAdapter.execute g name fres (none : Option ε) now).1
      = (fres, none) ∧
    (GobreakerAdapter.execute g name fres (some e) now).1
      = (none, some
          (if breakerStateIn (GobreakerAdapter.execute g name fres (some e) now).2
              name = BState.opened
           then GoErr.openNamed name else GoErr.fn e)) := by
  have hneg : ¬ (g.config.enabled = false) := by
    rw [hen]
    exact fun h => nomatch h
  constructor
  · simp only [GobreakerAdapter.execute]
    rw [if_neg hneg]
    rw [exec_state_not_open_ok _ _ _ hentry]
  · simp only [GobreakerAdapter.execute]
    rw [if_neg hneg]
    rw [exec_state_not_open _ _ _ _ hentry]
    simp only [breakerStateIn, lookupKey_putKey_self, stateNow_snd_state]
    by_cases hst :
        (((g.getBreaker name now).1.onFailure now).stateNow now).1 = BState.opened
    · simp [hst, breakerStateIn, lookupKey_putKey_self, stateNow_snd_state]
    · simp [hst, breakerStateIn, lookupKey_putKey_self, stateNow_snd_state]

/-- Witness for C1's amended theorem: a fresh (Closed) breaker under
`cfgC1`, exercised with a success and with failure error `7`. -/
theorem execute_propagates_fn_outcome_witness :
    (GobreakerAdapter.execute gEmptyC1 "k" (some ()) (none : Option ℕ) 0).1
      = (some (), none) ∧
    (GobreakerAdapter.execute gEmptyC1 "k" (some ()) (some 7) 0).1
      = (none, some
          (if breakerStateIn
              (GobreakerAdapter.execute gEmptyC1 "k" (some ()) (some 7) 0).2 "k"
              = BState.opened
           then GoErr.openNamed "k" else GoErr.fn 7)) :=
  execute_propagates_fn_outcome gEmptyC1 "k" (some ()) 7 0 rfl
    (fun h => nomatch h)

/-! ## TTL cache (`infrastructure/cache/memory_adapter.go`)

`memoryAdapter` holds `items map[string]cacheEntry` guarded by one lock.
Entry values (Go `interface{}`) are modelled by the tagged union
`GoValue`, covering exactly the dynamic types `Increment`'s numeric
switch distinguishes plus a representative non-numeric type.
`cacheEntry.expiration` (a `time.Time` that is compared with `IsZero`) is
an `Option ℚ` with `none` for the zero time.  `Get`'s asynchronous
removal of an expired entry (`go func() { delete(...) }`) is concurrent
cleanup that does not affect the synchronous return value, so `Get` is
modelled as the pure read it performs under `RLock`.  The background
sweep and `Close` channel are real-time concurrency and are not part of
the modelled operations. -/

/-- The dynamic types a stored value can carry, as far as the cache
distinguishes them: the numeric kinds of `Increment`'s switch
(`int`, `int32`, `int64`, `float32`, `float64`) and a representative
non-numeric kind (`string`). -/
inductive GoValue
  | vint (n : ℤ)
  | vint32 (n : ℤ)
  | vint64 (n : ℤ)
  | vfloat32 (q : ℚ)
  | vfloat64 (q : ℚ)
  | vstr (s : String)
deriving DecidableEq, Repr

/-- Go `cacheEntry`. -/
structure CacheEntry where
  value : GoValue
  expiration : Option ℚ
deriving DecidableEq, Repr

/-- Go `cacheEntry.isExpired`: `false` when `expiration.IsZero()`, else
`time.Now().After(expiration)`. -/
def CacheEntry.isExpired (e : CacheEntry) (now : ℚ) : Bool :=
  match e.expiration with
  | none => false
  | some t => decide (t < now)

/-- The store of a `memoryAdapter`. -/
def CacheStore : Type := List (String × CacheEntry)

/-- The cache configuration fields the modelled operations read
(`application/cache.Config.Enabled` and `.MaxEntries`). -/
structure CacheConfig where
  enabled : Bool
  maxEntries : ℤ
deriving DecidableEq, Repr

/-- Go `memoryAdapter.Get`: disabled ⇒ not found; missing or expired ⇒ not
found (the expired entry's asynchronous removal does not change the
returned value); otherwise the stored value. -/
def memGet (cfg : CacheConfig) (items : CacheStore) (key : String) (now : ℚ) :
    Option GoValue :=
  if cfg.enabled = false then none
  else
    match lookupKey items key with
    | none => none
    | some e => if e.isExpired now then none else some e.value

/-- Go `memoryAdapter.Has` (delegates to `Get`). -/
def memHas (cfg : CacheConfig) (items : CacheStore) (key : String) (now : ℚ) :
    Bool :=
  if cfg.enabled = false then false
  else (memGet cfg items key now).isSome

/-- The eviction loop of `Set` at capacity: `for k := range m.items {
delete(m.items, k); break }` removes one arbitrary entry; the head of the
association list stands for Go's unspecified iteration choice. -/
def evictOne (items : CacheStore) : CacheStore :=
  match items with
  | [] => []
  | _ :: t => t

/-- Go `memoryAdapter.Set`: no-op (returning success) when disabled; evict
one arbitrary entry whenever `MaxEntries > 0` and the store is at
capacity — even when `key` already exists; `ttl > 0` sets
`expiration = now + ttl`, `ttl = 0` stores a never-expiring entry.
(`Set` always returns `nil`, so only the store is modelled.) -/
def memSet (cfg : CacheConfig) (items : CacheStore) (key : String)
    (v : GoValue) (ttl : ℚ) (now : ℚ) : CacheStore :=
  if cfg.enabled = false then items
  else
    let items :=
      if 0 < cfg.maxEntries ∧ cfg.maxEntries ≤ (items.length : ℤ)
      then evictOne items else items
    let expiration : Option ℚ := if 0 < ttl then some (now + ttl) else none
    putKey items key ⟨v, expiration⟩

/-- Go `memoryAdapter.Delete` (always returns `nil`). -/
def memDelete (cfg : CacheConfig) (items : CacheStore) (key : String) :
    CacheStore :=
  if cfg.enabled = false then items else delKey items key

/-- Go `memoryAdapter.Clear` (always returns `nil`). -/
def memClear (cfg : CacheConfig) (items : CacheStore) : CacheStore :=
  if cfg.enabled = false then items else []

/-- Go `memoryAdapter.GetMulti`: per-key `Get`, returning the found
key/value pairs and the missing keys (disabled ⇒ nothing found, all keys
missing). -/
def memGetMulti (cfg : CacheConfig) (items : CacheStore) (keys : List String)
    (now : ℚ) : List (String × GoValue) × List String :=
  if cfg.enabled = false then ([], keys)
  else
    keys.foldl
      (fun acc key =>
        match memGet cfg items key now with
        | some v => (acc.1 ++ [(key, v)], acc.2)
        | none => (acc.1, acc.2 ++ [key]))
      ([], [])

/-- Go `memoryAdapter.SetMulti`: per-item `Set`; since `Set` always returns
`nil`, the fail-fast loop never stops early.  (Go map iteration order is
unspecified; the list order stands for one such order.) -/
def memSetMulti (cfg : CacheConfig) (items : CacheStore)
    (kvs : List (String × GoValue)) (ttl : ℚ) (now : ℚ) : CacheStore :=
  if cfg.enabled = false then items
  else kvs.foldl (fun st kv => memSet cfg st kv.1 kv.2 ttl now) items

/-- Go `memoryAdapter.DeleteMulti`: per-key `Delete`; `Delete` always
returns `nil`. -/
def memDeleteMulti (cfg : CacheConfig) (items : CacheStore)
    (keys : List String) : CacheStore :=
  if cfg.enabled = false then items
  else keys.foldl (fun st key => memDelete cfg st key) items

/-- The error outcomes of `Increment`/`Decrement`. -/
inductive CacheErr
  | disabled
  | notANumber
deriving DecidableEq, Repr

/-- Go `Increment`'s numeric switch: which `int64` value an existing stored
value coerces to (`int`, `int32`, `int64` copy their value; `float32`,
`float64` truncate toward zero; anything else is a type mismatch).
In-range values are assumed for the float conversions, whose out-of-range
behaviour Go leaves unspecified. -/
def coerceInt64 : GoValue → Option ℤ
  | .vint n => some n
  | .vint32 n => some n
  | .vint64 n => some n
  | .vfloat32 q => some (truncToward0 q)
  | .vfloat64 q => some (truncToward0 q)
  | .vstr _ => none

/-- Go `memoryAdapter.Increment`: errors when disabled (unlike every other
operation); reads the existing entry (absent or expired ⇒ start from 0,
skipping the numeric switch; a present non-numeric value ⇒ type-mismatch
error); adds `amount` with `int64` wrap-around; stores the sum back as an
`int64` with the *prior entry's* expiration (the zero value's `none` when
the key was absent). -/
def memIncrement (cfg : CacheConfig) (items : CacheStore) (key : String)
    (amount : ℤ) (now : ℚ) : Except CacheErr ℤ × CacheStore :=
  if cfg.enabled = false then (Except.error CacheErr.disabled, items)
  else
    let entry? := lookupKey items key
    let entryExp : Option ℚ :=
      match entry? with
      | some e => e.expiration
      | none => none
    let val? : Except CacheErr ℤ :=
      match entry? with
      | some e =>
          if e.isExpired now then Except.ok 0
          else
            match coerceInt64 e.value with
            | some v => Except.ok v
            | none => Except.error CacheErr.notANumber
      | none => Except.ok 0
    match val? with
    | Except.error err => (Except.error err, items)
    | Except.ok v =>
        let v := wrap64 (v + amount)
        (Except.ok v, putKey items key ⟨GoValue.vint64 v, entryExp⟩)

/-- Go `memoryAdapter.Decrement`: `return m.Increment(ctx, key, -amount)`;
the `int64` negation wraps (`-amount` of the minimal `int64` is
itself). -/
def memDecrement (cfg : CacheConfig) (items : CacheStore) (key : String)
    (amount : ℤ) (now : ℚ) : Except CacheErr ℤ × CacheStore :=
  memIncrement cfg items key (wrap64 (-amount)) now

/-! ### Claim C7: behaviour when the cache is disabled -/

/-- Claim C7 counterexample.  With `Enabled=false`, `Increment` (and hence
`Decrement`) does *not* silently no-op: it fails with the "cache is
disabled" error, unlike every other cache operation. -/
theorem disabled_increment_errors :
    (memIncrement ⟨false, 0⟩ [] "k" 1 0).1 = Except.error CacheErr.disabled ∧
    (memDecrement ⟨false, 0⟩ [] "k" 1 0).1 = Except.error CacheErr.disabled :=
  ⟨rfl, rfl⟩

/-- Claim C7, amended.  When the cache is configured with `Enabled=false`,
every operation *except* `Increment` and `Decrement` is a silent no-op
that never fails: `Get`/`Has` report not-found, `Set`/`Delete`/`Clear`
and the multi-key variants return success without touching the store,
and `GetMulti` reports every key missing; `Increment` and `Decrement`,
by contrast, return the "cache is disabled" error (and leave the store
unchanged). -/
theorem disabled_cache_noop (cfg : CacheConfig) (items : CacheStore)
    (key : String) (v : GoValue) (ttl now : ℚ) (amount : ℤ)
    (keys : List String) (kvs : List (String × GoValue))
    (hdis : cfg.enabled = false) :
    memGet cfg items key now = none ∧
    memHas cfg items key now = false ∧
    memSet cfg items key v ttl now = items ∧
    memDelete cfg items key = items ∧
    memClear cfg items = items ∧
    memGetMulti cfg items keys now = ([], keys) ∧
    memSetMulti cfg items kvs ttl now = items ∧
    memDeleteMulti cfg items keys = items ∧
    memIncrement cfg items key amount now
      = (Except.error CacheErr.disabled, items) ∧
    memDecrement cfg items key amount now
      = (Except.error CacheErr.disabled, items) := by
  refine ⟨?_, ?_, ?_, ?_, ?_, ?_, ?_, ?_, ?_, ?_⟩
  · simp [memGet, hdis]
  · simp [memHas, hdis]
  · simp [memSet, hdis]
  · simp [memDelete, hdis]
  · simp [memClear, hdis]
  · simp [memGetMulti, hdis]
  · simp [memSetMulti, hdis]
  · simp [memDeleteMulti, hdis]
  · simp [memIncrement, hdis]
  · simp [memDecrement, memIncrement, hdis]

/-- Witness for C7's amended theorem at a concrete disabled cache. -/
theorem disabled_cache_noop_witness :
    memGet ⟨false, 5⟩ [("a", ⟨GoValue.vint64 1, none⟩)] "k" 0 = none ∧
    memHas ⟨false, 5⟩ [("a", ⟨GoValue.vint64 1, none⟩)] "k" 0 = false ∧
    memSet ⟨false, 5⟩ [("a", ⟨GoValue.vint64 1, none⟩)] "k" (GoValue.vstr "x") 1 0
      = [("a", ⟨GoValue.vint64 1, none⟩)] ∧
    memDelete ⟨false, 5⟩ [("a", ⟨GoValue.vint64 1, none⟩)] "k"
      = [("a", ⟨GoValue.vint64 1, none⟩)] ∧
    memClear ⟨false, 5⟩ [("a", ⟨GoValue.vint64 1, none⟩)]
      = [("a", ⟨GoValue.vint64 1, none⟩)] ∧
    memGetMulti ⟨false, 5⟩ [("a", ⟨GoValue.vint64 1, none⟩)] ["a", "b"] 0
      = ([], ["a", "b"]) ∧
    memSetMulti ⟨false, 5⟩ [("a", ⟨GoValue.vint64 1, none⟩)]
        [("c", GoValue.vint64 2)] 1 0
      = [("a", ⟨GoValue.vint64 1, none⟩)] ∧
    memDeleteMulti ⟨false, 5⟩ [("a", ⟨GoValue.vint64 1, none⟩)] ["a", "b"]
      = [("a", ⟨GoValue.vint64 1, none⟩)] ∧
    memIncrement ⟨false, 5⟩ [("a", ⟨GoValue.vint64 1, none⟩)] "k" 3 0
      = (Except.error CacheErr.disabled, [("a", ⟨GoValue.vint64 1, none⟩)]) ∧
    memDecrement ⟨false, 5⟩ [("a", ⟨GoValue.vint64 1, none⟩)] "k" 3 0
      = (Except.error CacheErr.disabled, [("a", ⟨GoValue.vint64 1, none⟩)]) :=
  disabled_cache_noop ⟨false, 5⟩ [("a", ⟨GoValue.vint64 1, none⟩)] "k"
    (GoValue.vstr "x") 1 0 3 ["a", "b"] [("c", GoValue.vint64 2)] rfl

/-! ### Claims C8 and C9: `Increment`/`Decrement` arithmetic -/

/-- The integer a stored value holds, when it is of one of Go's integer
types (`int`, `int32`, `int64`). -/
def GoValue.intValue? : GoValue → Option ℤ
  | .vint n => some n
  | .vint32 n => some n
  | .vint64 n => some n
  | _ => none

theorem coerceInt64_of_intValue {gv : GoValue} {v : ℤ}
    (h : gv.intValue? = some v) : coerceInt64 gv = some v := by
  cases gv <;> simp_all [GoValue.intValue?, coerceInt64]

theorem memIncrement_found (cfg : CacheConfig) (items : CacheStore)
    (key : String) (amount : ℤ) (now : ℚ) (e : CacheEntry) (v : ℤ)
    (hen : cfg.enabled = true) (hlook : lookupKey items key = some e)
    (hexp : e.isExpired now = false) (hco : coerceInt64 e.value = some v) :
    memIncrement cfg items key amount now =
      (Except.ok (wrap64 (v + amount)),
       putKey items key ⟨GoValue.vint64 (wrap64 (v + amount)), e.expiration⟩) := by
  simp [memIncrement, hen, hlook, hexp, hco]

theorem memIncrement_absent (cfg : CacheConfig) (items : CacheStore)
    (key : String) (amount : ℤ) (now : ℚ)
    (hen : cfg.enabled = true) (hlook : lookupKey items key = none) :
    memIncrement cfg items key amount now =
      (Except.ok (wrap64 amount),
       putKey items key ⟨GoValue.vint64 (wrap64 amount), none⟩) := by
  simp [memIncrement, hen, hlook]

theorem memIncrement_expired (cfg : CacheConfig) (items : CacheStore)
    (key : String) (amount : ℤ) (now : ℚ) (e : CacheEntry)
    (hen : cfg.enabled = true) (hlook : lookupKey items key = some e)
    (hexp : e.isExpired now = true) :
    memIncrement cfg items key amount now =
      (Except.ok (wrap64 amount),
       putKey items key ⟨GoValue.vint64 (wrap64 amount), e.expiration⟩) := by
  simp [memIncrement, hen, hlook, hexp]

/-- Claim C8.  For every key holding an integer-typed value `v` (stored as
Go `int`, `int32` or `int64`, in `int64` range) and every `int64` amount
`a`: `Increment(k,a)` followed by `Decrement(k,a)` restores the prior
value — the entry afterwards holds `v` again (re-stored in the cache's
canonical `int64` representation, so when the prior entry was itself an
`int64` it is restored verbatim) under its original expiration;
`Increment` on an absent key treats the start as zero and returns `a`,
storing a permanent `int64` entry `a`; and `Decrement(k,a)` is literally
`Increment(k,−a)` (with `int64` negation, which for every `a` above the
minimal `int64` is exact negation). -/
theorem increment_decrement_inverse (cfg : CacheConfig)
    (items₁ items₂ items₃ : CacheStore) (key : String) (a v : ℤ)
    (e : CacheEntry) (now : ℚ)
    (hen : cfg.enabled = true)
    (ha₁ : -(2 ^ 63) ≤ a) (ha₂ : a < 2 ^ 63)
    (hlook : lookupKey items₁ key = some e)
    (hexp : e.isExpired now = false)
    (hv : e.value.intValue? = some v)
    (hv₁ : -(2 ^ 63) ≤ v) (hv₂ : v < 2 ^ 63)
    (hlook₂ : lookupKey items₂ key = none)
    (hmin : -(2 ^ 63) < a) :
    lookupKey (memDecrement cfg (memIncrement cfg items₁ key a now).2
        key a now).2 key
      = some ⟨GoValue.vint64 v, e.expiration⟩ ∧
    (memIncrement cfg items₂ key a now).1 = Except.ok a ∧
    lookupKey (memIncrement cfg items₂ key a now).2 key
      = some ⟨GoValue.vint64 a, none⟩ ∧
    memDecrement cfg items₃ key a now = memIncrement cfg items₃ key (-a) now := by
  have hwa : wrap64 a = a := wrap64_eq_self ha₁ ha₂
  have hwv : wrap64 v = v := wrap64_eq_self hv₁ hv₂
  have hwna : wrap64 (-a) = -a :=
    wrap64_eq_self (by omega) (by omega)
  have hco := coerceInt64_of_intValue hv
  have hinc := memIncrement_found cfg items₁ key a now e v hen hlook hexp hco
  refine ⟨?_, ?_, ?_, ?_⟩
  · set w := wrap64 (v + a) with hw
    have hlook' : lookupKey (memIncrement cfg items₁ key a now).2 key
        = some ⟨GoValue.vint64 w, e.expiration⟩ := by
      rw [hinc]
      exact lookupKey_putKey_self _ _ _
    have hexp' : (⟨GoValue.vint64 w, e.expiration⟩ : CacheEntry).isExpired now
        = false := hexp
    have hco' : coerceInt64 (GoValue.vint64 w) = some w := rfl
    have hdec := memIncrement_found cfg (memIncrement cfg items₁ key a now).2
      key (wrap64 (-a)) now ⟨GoValue.vint64 w, e.expiration⟩ w hen hlook' hexp' hco'
    have hval : wrap64 (w + wrap64 (-a)) = v := by
      rw [hw, wrap64_add_right, wrap64_add_left]
      rw [show v + a + -a = v by ring]
      exact hwv
    show lookupKey (memIncrement cfg (memIncrement cfg items₁ key a now).2
        key (wrap64 (-a)) now).2 key = _
    rw [hdec, hval]
    exact lookupKey_putKey_self _ _ _
  · rw [memIncrement_absent cfg items₂ key a now hen hlook₂, hwa]
  · rw [memIncrement_absent cfg items₂ key a now hen hlook₂, hwa]
    exact lookupKey_putKey_self _ _ _
  · show memIncrement cfg items₃ key (wrap64 (-a)) now = _
    rw [hwna]

/-- Witness for C8 at a concrete store holding `int64 5` under `"k"`,
with `a = 3`. -/
theorem increment_decrement_inverse_witness :
    lookupKey (memDecrement ⟨true, 0⟩
        (memIncrement ⟨true, 0⟩ [("k", ⟨GoValue.vint64 5, none⟩)] "k" 3 0).2
        "k" 3 0).2 "k"
      = some ⟨GoValue.vint64 5, (none : Option ℚ)⟩ ∧
    (memIncrement ⟨true, 0⟩ [] "k" 3 0).1 = Except.ok 3 ∧
    lookupKey (memIncrement ⟨true, 0⟩ [] "k" 3 0).2 "k"
      = some ⟨GoValue.vint64 3, none⟩ ∧
    memDecrement ⟨true, 0⟩ [("x", ⟨GoValue.vstr "old", none⟩)] "k" 3 0
      = memIncrement ⟨true, 0⟩ [("x", ⟨GoValue.vstr "old", none⟩)] "k" (-3) 0 :=
  increment_decrement_inverse ⟨true, 0⟩ [("k", ⟨GoValue.vint64 5, none⟩)] []
    [("x", ⟨GoValue.vstr "old", none⟩)] "k" 3 5 ⟨GoValue.vint64 5, none⟩ 0
    rfl (by norm_num) (by norm_num) rfl rfl rfl (by norm_num) (by norm_num)
    rfl (by norm_num)

/-- Claim C9.  `Increment` on a present-but-expired entry starts from zero
(never consulting the stale value's type), yet writes the counter back
under the entry's old, already-past expiration, so the fresh value is
itself immediately expired: the call returns `amount` and stores
`int64 amount` with the stale timestamp, and any later `Get`/`Has`
reports not-found. -/
theorem increment_on_expired_entry (cfg : CacheConfig) (items : CacheStore)
    (key : String) (amount : ℤ) (now now' t : ℚ) (e : CacheEntry)
    (hen : cfg.enabled = true)
    (hlook : lookupKey items key = some e)
    (hexp : e.expiration = some t) (ht : t < now) (hnow : now ≤ now')
    (ha₁ : -(2 ^ 63) ≤ amount) (ha₂ : amount < 2 ^ 63) :
    (memIncrement cfg items key amount now).1 = Except.ok amount ∧
    lookupKey (memIncrement cfg items key amount now).2 key
      = some ⟨GoValue.vint64 amount, some t⟩ ∧
    memGet cfg (memIncrement cfg items key amount now).2 key now' = none ∧
    memHas cfg (memIncrement cfg items key amount now).2 key now' = false := by
  have hwa : wrap64 amount = amount := wrap64_eq_self ha₁ ha₂
  have hexpired : e.isExpired now = true := by
    simp [CacheEntry.isExpired, hexp, ht]
  have hinc := memIncrement_expired cfg items key amount now e hen hlook hexpired
  have hlook' : lookupKey (memIncrement cfg items key amount now).2 key
      = some ⟨GoValue.vint64 amount, some t⟩ := by
    rw [hinc, hwa, hexp]
    exact lookupKey_putKey_self _ _ _
  have hexpired' :
      (⟨GoValue.vint64 amount, some t⟩ : CacheEntry).isExpired now' = true := by
    simp only [CacheEntry.isExpired]
    exact decide_eq_true (lt_of_lt_of_le ht hnow)
  have hget : memGet cfg (memIncrement cfg items key amount now).2 key now'
      = none := by
    simp [memGet, hen, hlook', hexpired']
  refine ⟨?_, hlook', hget, ?_⟩
  · rw [hinc, hwa]
  · simp [memHas, hen, hget]

/-- Witness for C9: a stale string entry that expired at time 1, hit by
`Increment` at time 2 and read back at time 3. -/
theorem increment_on_expired_entry_witness :
    (memIncrement ⟨true, 0⟩ [("k", ⟨GoValue.vstr "junk", some 1⟩)] "k" 7 2).1
      = Except.ok 7 ∧
    lookupKey (memIncrement ⟨true, 0⟩ [("k", ⟨GoValue.vstr "junk", some 1⟩)]
        "k" 7 2).2 "k"
      = some ⟨GoValue.vint64 7, some 1⟩ ∧
    memGet ⟨true, 0⟩ (memIncrement ⟨true, 0⟩
        [("k", ⟨GoValue.vstr "junk", some 1⟩)] "k" 7 2).2 "k" 3 = none ∧
    memHas ⟨true, 0⟩ (memIncrement ⟨true, 0⟩
        [("k", ⟨GoValue.vstr "junk", some 1⟩)] "k" 7 2).2 "k" 3 = false :=
  increment_on_expired_entry ⟨true, 0⟩ [("k", ⟨GoValue.vstr "junk", some 1⟩)]
    "k" 7 2 3 1 ⟨GoValue.vstr "junk", some 1⟩ rfl rfl rfl (by norm_num)
    (by norm_num) (by norm_num) (by norm_num)

/-! ### Claim C10: the `MaxEntries` capacity invariant -/

/-- Claim C10 counterexample.  `Increment` inserts without any capacity
check: with `MaxEntries = 1` and a store already holding one entry,
`Increment` on a fresh key grows the store to two entries, violating the
claimed "at most `MaxEntries` entries after every operation" invariant. -/
theorem increment_exceeds_maxEntries :
    (([("a", ⟨GoValue.vint64 1, none⟩)] : CacheStore).length : ℤ) ≤ 1 ∧
    ((memIncrement ⟨true, 1⟩ [("a", ⟨GoValue.vint64 1, none⟩)] "b" 1 0).2).length
      = 2 ∧
    ¬ (((memIncrement ⟨true, 1⟩ [("a", ⟨GoValue.vint64 1, none⟩)]
        "b" 1 0).2).length : ℤ) ≤ 1 := by
  refine ⟨by norm_num, ?_, ?_⟩
  · rfl
  · intro h
    rw [show (memIncrement ⟨true, 1⟩ [("a", ⟨GoValue.vint64 1, none⟩)]
        "b" 1 0).2.length = 2 from rfl] at h
    norm_num at h

theorem memSet_length (cfg : CacheConfig) (items : CacheStore) (key : String)
    (v : GoValue) (ttl now : ℚ)
    (hmax : 0 < cfg.maxEntries)
    (hlen : (items.length : ℤ) ≤ cfg.maxEntries) :
    ((memSet cfg items key v ttl now).length : ℤ) ≤ cfg.maxEntries := by
  unfold memSet
  by_cases hdis : cfg.enabled = false
  · rw [if_pos hdis]
    exact hlen
  · rw [if_neg hdis]
    by_cases hcap : 0 < cfg.maxEntries ∧ cfg.maxEntries ≤ (items.length : ℤ)
    · rw [if_pos hcap]
      cases items with
      | nil =>
          have := hcap.2
          simp only [List.length_nil, Nat.cast_zero] at this
          omega
      | cons hd t =>
          have hput := length_putKey_le t key
            ⟨v, if 0 < ttl then some (now + ttl) else none⟩
          have hlent : ((hd :: t).length : ℤ) = (t.length : ℤ) + 1 := by
            simp
          simp only [evictOne]
          omega
    · rw [if_neg hcap]
      push_neg at hcap
      have hlt := hcap hmax
      have hput := length_putKey_le items key
        ⟨v, if 0 < ttl then some (now + ttl) else none⟩
      show ((putKey items key
          ⟨v, if 0 < ttl then some (now + ttl) else none⟩).length : ℤ)
        ≤ cfg.maxEntries
      omega

theorem memSetMulti_length (cfg : CacheConfig)
    (kvs : List (String × GoValue)) (items : CacheStore) (ttl now : ℚ)
    (hmax : 0 < cfg.maxEntries)
    (hlen : (items.length : ℤ) ≤ cfg.maxEntries) :
    ((memSetMulti cfg items kvs ttl now).length : ℤ) ≤ cfg.maxEntries := by
  unfold memSetMulti
  by_cases hdis : cfg.enabled = false
  · rw [if_pos hdis]
    exact hlen
  · rw [if_neg hdis]
    induction kvs generalizing items with
    | nil => simpa using hlen
    | cons kv rest ih =>
        rw [List.foldl_cons]
        exact ih _ (memSet_length cfg items kv.1 kv.2 ttl now hmax hlen)

theorem memDeleteMulti_length (cfg : CacheConfig) (keys : List String)
    (items : CacheStore)
    (hlen : (items.length : ℤ) ≤ cfg.maxEntries) :
    ((memDeleteMulti cfg items keys).length : ℤ) ≤ cfg.maxEntries := by
  unfold memDeleteMulti
  by_cases hdis : cfg.enabled = false
  · rw [if_pos hdis]
    exact hlen
  · rw [if_neg hdis]
    induction keys generalizing items with
    | nil => simpa using hlen
    | cons k rest ih =>
        rw [List.foldl_cons]
        refine ih _ ?_
        unfold memDelete
        rw [if_neg hdis]
        have := length_delKey_le items k
        omega

/-- Claim C10, amended.  When `MaxEntries > 0`, the store-writing
operations other than `Increment`/`Decrement` — `Set`, `Delete`, `Clear`,
`SetMulti`, `DeleteMulti` (`Get`/`Has`/`GetMulti` never write) — preserve
the invariant that at most `MaxEntries` entries are stored, and `Set`
triggers the arbitrary single-entry eviction whenever the store is at
capacity, even when the key being set already exists (so the evicted
entry — here the one Go's map iteration yields first, modelled as the
list head — may be unrelated to, or exactly, the key being overwritten);
`Increment`/`Decrement`, per the counterexample, can exceed the bound. -/
theorem maxEntries_invariant (cfg : CacheConfig) (items : CacheStore)
    (key : String) (v : GoValue) (ttl now : ℚ) (keys : List String)
    (kvs : List (String × GoValue)) (k₀ : String) (e₀ : CacheEntry)
    (rest : CacheStore)
    (hmax : 0 < cfg.maxEntries)
    (hlen : (items.length : ℤ) ≤ cfg.maxEntries)
    (hen : cfg.enabled = true)
    (hcap : cfg.maxEntries ≤ ((((k₀, e₀) :: rest : CacheStore)).length : ℤ)) :
    ((memSet cfg items key v ttl now).length : ℤ) ≤ cfg.maxEntries ∧
    ((memDelete cfg items key).length : ℤ) ≤ cfg.maxEntries ∧
    ((memClear cfg items).length : ℤ) ≤ cfg.maxEntries ∧
    ((memSetMulti cfg items kvs ttl now).length : ℤ) ≤ cfg.maxEntries ∧
    ((memDeleteMulti cfg items keys).length : ℤ) ≤ cfg.maxEntries ∧
    memSet cfg ((k₀, e₀) :: rest) key v ttl now
      = putKey rest key ⟨v, if 0 < ttl then some (now + ttl) else none⟩ := by
  have hneg : ¬ (cfg.enabled = false) := by
    rw [hen]
    exact fun h => nomatch h
  refine ⟨memSet_length cfg items key v ttl now hmax hlen, ?_, ?_,
    memSetMulti_length cfg kvs items ttl now hmax hlen,
    memDeleteMulti_length cfg keys items hlen, ?_⟩
  · unfold memDelete
    by_cases hdis : cfg.enabled = false
    · rw [if_pos hdis]
      exact hlen
    · rw [if_neg hdis]
      have := length_delKey_le items key
      omega
  · unfold memClear
    by_cases hdis : cfg.enabled = false
    · rw [if_pos hdis]
      exact hlen
    · rw [if_neg hdis]
      simp
      omega
  · unfold memSet
    rw [if_neg hneg, if_pos ⟨hmax, hcap⟩]
    rfl

/-- Witness for C10's amended theorem: `MaxEntries = 1`, the store holds
exactly the key `"a"` being overwritten, and the eviction still fires,
removing the head entry (here the very entry being overwritten). -/
theorem maxEntries_invariant_witness :
    ((memSet ⟨true, 1⟩ [("a", ⟨GoValue.vint64 1, none⟩)] "a"
        (GoValue.vint64 9) 0 0).length : ℤ) ≤ 1 ∧
    ((memDelete ⟨true, 1⟩ [("a", ⟨GoValue.vint64 1, none⟩)] "a").length : ℤ)
      ≤ 1 ∧
    ((memClear ⟨true, 1⟩ [("a", ⟨GoValue.vint64 1, none⟩)]).length : ℤ) ≤ 1 ∧
    ((memSetMulti ⟨true, 1⟩ [("a", ⟨GoValue.vint64 1, none⟩)]
        [("b", GoValue.vint64 2)] 0 0).length : ℤ) ≤ 1 ∧
    ((memDeleteMulti ⟨true, 1⟩ [("a", ⟨GoValue.vint64 1, none⟩)]
        ["a"]).length : ℤ) ≤ 1 ∧
    memSet ⟨true, 1⟩ [("a", ⟨GoValue.vint64 1, none⟩)] "a" (GoValue.vint64 9) 0 0
      = putKey [] "a" ⟨GoValue.vint64 9,
          if (0 : ℚ) < 0 then some ((0 : ℚ) + 0) else none⟩ :=
  maxEntries_invariant ⟨true, 1⟩ [("a", ⟨GoValue.vint64 1, none⟩)] "a"
    (GoValue.vint64 9) 0 0 ["a"] [("b", GoValue.vint64 2)] "a"
    ⟨GoValue.vint64 1, none⟩ [] (by norm_num) (by norm_num) rfl (by norm_num)

end SCG
